import Mathlib

/-!
Shallow embedding of the Triton vector-addition notebook
(src/triton-vec-add.ipynb).

The notebook defines:
  * `add_kernel(x_ptr, y_ptr, output_ptr, n_elements, BLOCK_SIZE)` — one
    program instance (identified by `pid`) computes
    `offsets = pid*BLOCK_SIZE + arange(0, BLOCK_SIZE)`,
    `mask = offsets < n_elements`, loads `x` and `y` at the masked offsets,
    and stores `x + y` to `output_ptr + offsets` under the same mask.
  * `add(x, y)` — allocates `output = torch.empty_like(x)`, asserts
    `x.is_cuda and y.is_cuda and output.is_cuda`, sets
    `n_elements = output.numel()`, and launches `add_kernel` on a grid of
    `triton.cdiv(n_elements, BLOCK_SIZE)` programs with `BLOCK_SIZE = 1024`.

Vectors are modelled as Lean lists; the element type `α` is abstract with
an addition (the notebook uses device floats; the kernel applies the
device `+` pointwise, which we model by the abstract `+`).  A device read
past the end of a tensor's buffer is undefined in the source; we model it
by `List.getD _ _ default`, an arbitrary fixed value.  The uninitialised
output buffer returned by `torch.empty_like` is modelled as a list of
`Option α` cells, all `none`; a store puts `some v` into a cell.  The
grid's programs run independently on disjoint offset ranges; we model one
linearisation (programs in pid order) and prove the disjointness that
makes the order irrelevant.
-/

namespace TritonVecAdd

/-- `triton.cdiv x y = (x + y - 1) / y`, the ceiling division used to size
the launch grid. -/
def cdiv (x y : Nat) : Nat := (x + y - 1) / y

/-- A torch tensor: its flat buffer of elements plus the `is_cuda` device
flag consulted by the launcher's assert. -/
structure Tensor (α : Type) where
  data : List α
  is_cuda : Bool
deriving DecidableEq, Repr

/-- `torch.Tensor.numel`: the number of elements of the buffer. -/
def Tensor.numel {α : Type} (t : Tensor α) : Nat := t.data.length

/-- `offsets = block_start + tl.arange(0, BLOCK_SIZE)` with
`block_start = pid * BLOCK_SIZE`: the offset vector of program `pid`. -/
def progOffsets (pid BLOCK_SIZE : Nat) : List Nat :=
  (List.range BLOCK_SIZE).map (fun j => pid * BLOCK_SIZE + j)

/-- The offsets of program `pid` that pass `mask = offsets < n_elements`.
These are exactly the addresses program `pid` loads from (`tl.load` on
`x_ptr + offsets` and `y_ptr + offsets` with `mask`) and stores to
(`tl.store` on `output_ptr + offsets` with `mask`); masked-out lanes
perform no memory access. -/
def maskedOffsets (pid BLOCK_SIZE n_elements : Nat) : List Nat :=
  (progOffsets pid BLOCK_SIZE).filter (fun o => o < n_elements)

/-- One program instance of `add_kernel`: at every mask-true offset `o` it
loads `x_ptr[o]` and `y_ptr[o]`, adds them, and emits the store
`(o, x[o] + y[o])` aimed at the output buffer.  The result is the list of
(offset, value) stores the program performs, in lane order. -/
def add_kernel {α : Type} [Add α] [Inhabited α]
    (x_ptr y_ptr : List α) (n_elements pid BLOCK_SIZE : Nat) :
    List (Nat × α) :=
  (maskedOffsets pid BLOCK_SIZE n_elements).map
    (fun o => (o, x_ptr.getD o default + y_ptr.getD o default))

/-- The stores of the whole grid: `triton.cdiv(n_elements, BLOCK_SIZE)`
programs, `pid = 0, 1, ...`, each contributing its `add_kernel` stores. -/
def launchGrid {α : Type} [Add α] [Inhabited α]
    (x_ptr y_ptr : List α) (n_elements BLOCK_SIZE : Nat) :
    List (Nat × α) :=
  (List.range (cdiv n_elements BLOCK_SIZE)).flatMap
    (fun pid => add_kernel x_ptr y_ptr n_elements pid BLOCK_SIZE)

/-- Apply one store `(o, v)` to the output buffer: cell `o` becomes
`some v`. -/
def applyWrite {α : Type} (buf : List (Option α)) (w : Nat × α) :
    List (Option α) :=
  buf.set w.1 (some w.2)

/-- `torch.empty_like(x)`: a fresh uninitialised buffer of the same shape
and device as `x`; every cell is `none` (undefined). -/
def empty_like {α : Type} (x : Tensor α) : Tensor (Option α) :=
  ⟨List.replicate x.data.length none, x.is_cuda⟩

/-- The launcher `add(x, y)` with an explicit `BLOCK_SIZE` argument
(the notebook fixes `BLOCK_SIZE = 1024` at the call site; the spec's
configuration surface is this chunk-size parameter).  It allocates
`output = empty_like x`, asserts `x.is_cuda and y.is_cuda and
output.is_cuda` (the assert is modelled as `Except.error`), sets
`n_elements = output.numel()`, runs the grid's stores on the output
buffer and returns it. -/
def addWithBlockSize {α : Type} [Add α] [Inhabited α]
    (x y : Tensor α) (BLOCK_SIZE : Nat) : Except String (Tensor (Option α)) :=
  let output := empty_like x
  if x.is_cuda && y.is_cuda && output.is_cuda then
    let n_elements := output.numel
    Except.ok
      ⟨(launchGrid x.data y.data n_elements BLOCK_SIZE).foldl applyWrite
          output.data,
        output.is_cuda⟩
  else
    Except.error "assert x.is_cuda and y.is_cuda and output.is_cuda"

/-- The notebook's public `add(x, y)`: the launcher at
`BLOCK_SIZE = 1024`. -/
def add {α : Type} [Add α] [Inhabited α] (x y : Tensor α) :
    Except String (Tensor (Option α)) :=
  addWithBlockSize x y 1024

/-! ### Device-memory view

To state frame properties (which buffers the kernel writes) we also give
the kernel a memory-level semantics: the three named buffers passed to
`add_kernel` as `x_ptr`, `y_ptr` and `output_ptr`, and the kernel's store
events tagged with the pointer they target.  The kernel body contains a
single store instruction, `tl.store(output_ptr + offsets, output,
mask=mask)`, so every store event targets `output_ptr`. -/

/-- The three pointer arguments of `add_kernel`. -/
inductive Ptr where
  | x_ptr
  | y_ptr
  | output_ptr
deriving DecidableEq, Repr

/-- Device memory as seen by the kernel: the buffers behind the three
pointer arguments.  The input buffers hold elements; the output buffer
holds possibly-uninitialised cells. -/
structure Mem (α : Type) where
  xbuf : List α
  ybuf : List α
  outbuf : List (Option α)

/-- Apply one store event `(p, o, v)` to memory: cell `o` of the buffer
behind pointer `p` is overwritten. -/
def applyStore {α : Type} (m : Mem α) (s : Ptr × Nat × α) : Mem α :=
  match s.1 with
  | Ptr.x_ptr => { m with xbuf := m.xbuf.set s.2.1 s.2.2 }
  | Ptr.y_ptr => { m with ybuf := m.ybuf.set s.2.1 s.2.2 }
  | Ptr.output_ptr => { m with outbuf := m.outbuf.set s.2.1 (some s.2.2) }

/-- The store events of one `add_kernel` program against memory `m`: the
kernel's only store instruction targets `output_ptr`, at the mask-true
offsets, with the loaded sum as value. -/
def kernelStores {α : Type} [Add α] [Inhabited α]
    (m : Mem α) (n_elements pid BLOCK_SIZE : Nat) : List (Ptr × Nat × α) :=
  (maskedOffsets pid BLOCK_SIZE n_elements).map
    (fun o => (Ptr.output_ptr, o, m.xbuf.getD o default + m.ybuf.getD o default))

/-- The store events of the whole grid (all programs read the untouched
input buffers of `m`, as in the source: loads target only `x_ptr`/`y_ptr`
and stores only `output_ptr`). -/
def gridStores {α : Type} [Add α] [Inhabited α]
    (m : Mem α) (n_elements BLOCK_SIZE : Nat) : List (Ptr × Nat × α) :=
  (List.range (cdiv n_elements BLOCK_SIZE)).flatMap
    (fun pid => kernelStores m n_elements pid BLOCK_SIZE)

/-- Run the grid on memory `m`: apply all its store events. -/
def runGrid {α : Type} [Add α] [Inhabited α]
    (m : Mem α) (n_elements BLOCK_SIZE : Nat) : Mem α :=
  (gridStores m n_elements BLOCK_SIZE).foldl applyStore m

end TritonVecAdd

namespace TritonVecAdd

/-! ### Offset-arithmetic lemmas -/

lemma mem_progOffsets {pid P o : Nat} :
    o ∈ progOffsets pid P ↔ pid * P ≤ o ∧ o < pid * P + P := by
  simp only [progOffsets, List.mem_map, List.mem_range]
  constructor
  · rintro ⟨j, hj, rfl⟩
    omega
  · intro h
    exact ⟨o - pid * P, by omega, by omega⟩

lemma mem_maskedOffsets {pid P N o : Nat} :
    o ∈ maskedOffsets pid P N ↔ (pid * P ≤ o ∧ o < pid * P + P) ∧ o < N := by
  simp [maskedOffsets, List.mem_filter, mem_progOffsets]

lemma filter_map_add_range (P s N : Nat) :
    ((List.range P).map (fun j => s + j)).filter (fun o => o < N) =
      (List.range (min P (N - s))).map (fun j => s + j) := by
  induction P with
  | zero => simp
  | succ n ih =>
    rw [List.range_succ, List.map_append, List.filter_append, ih]
    by_cases h : s + n < N
    · have h1 : min n (N - s) = n := by omega
      have h2 : min (n + 1) (N - s) = n + 1 := by omega
      simp [h, h1, h2, List.range_succ]
    · have h2 : min (n + 1) (N - s) = min n (N - s) := by omega
      simp [h, h2]

lemma maskedOffsets_eq (pid P N : Nat) :
    maskedOffsets pid P N =
      (List.range (min P (N - pid * P))).map (fun j => pid * P + j) :=
  filter_map_add_range P (pid * P) N

lemma flatMap_progOffsets (nc P : Nat) :
    (List.range nc).flatMap (fun pid => progOffsets pid P) =
      List.range (nc * P) := by
  induction nc with
  | zero => simp
  | succ n ih =>
    rw [List.range_succ, List.flatMap_append, ih, Nat.succ_mul, List.range_add]
    simp [progOffsets]

lemma flatMap_maskedOffsets (N P : Nat) :
    ∀ nc, N ≤ nc * P →
      (List.range nc).flatMap (fun pid => maskedOffsets pid P N) =
        List.range N := by
  intro nc
  induction nc with
  | zero =>
    intro h
    have : N = 0 := by omega
    simp [this]
  | succ n ih =>
    intro h
    rw [List.range_succ, List.flatMap_append]
    by_cases hn : N ≤ n * P
    · rw [ih hn]
      have hempty : maskedOffsets n P N = [] := by
        rw [maskedOffsets_eq]
        have : min P (N - n * P) = 0 := by omega
        simp [this]
      simp [hempty]
    · push_neg at hn
      have hsum : (n + 1) * P = n * P + P := by ring
      have hfull : ∀ pid ∈ List.range n,
          maskedOffsets pid P N = progOffsets pid P := by
        intro pid hpid
        rw [List.mem_range] at hpid
        apply List.filter_eq_self.mpr
        intro o ho
        rw [mem_progOffsets] at ho
        have hstep : pid * P + P ≤ n * P := by
          have h1 : (pid + 1) * P = pid * P + P := by ring
          have h2 : (pid + 1) * P ≤ n * P :=
            Nat.mul_le_mul_right P (Nat.succ_le_of_lt hpid)
          omega
        simp only [decide_eq_true_eq]
        omega
      rw [List.flatMap_congr hfull, flatMap_progOffsets]
      simp only [List.flatMap_cons, List.flatMap_nil, List.append_nil]
      rw [maskedOffsets_eq]
      have hmin : min P (N - n * P) = N - n * P := by omega
      rw [hmin]
      have hN : N = n * P + (N - n * P) := by omega
      conv_rhs => rw [hN]
      rw [List.range_add]

/-! ### Grid-launch lemmas -/

lemma le_cdiv_mul (N P : Nat) (hP : 0 < P) : N ≤ cdiv N P * P := by
  unfold cdiv
  have h1 := Nat.div_add_mod (N + P - 1) P
  have h2 := Nat.mod_lt (N + P - 1) hP
  have h3 : (N + P - 1) / P * P = P * ((N + P - 1) / P) := by ring
  omega

lemma launch_offsets (N P : Nat) (hP : 0 < P) :
    (List.range (cdiv N P)).flatMap (fun pid => maskedOffsets pid P N) =
      List.range N :=
  flatMap_maskedOffsets N P (cdiv N P) (le_cdiv_mul N P hP)

lemma launchGrid_eq {α : Type} [Add α] [Inhabited α]
    (x y : List α) (N P : Nat) (hP : 0 < P) :
    launchGrid x y N P =
      (List.range N).map
        (fun o => (o, x.getD o default + y.getD o default)) := by
  unfold launchGrid add_kernel
  rw [← List.map_flatMap, launch_offsets N P hP]

lemma foldl_applyWrite_range {α : Type} (v : Nat → α) :
    ∀ (N : Nat) (buf : List (Option α)), N ≤ buf.length →
      ((List.range N).map (fun o => (o, v o))).foldl applyWrite buf =
        (List.range N).map (fun o => some (v o)) ++ buf.drop N := by
  intro N
  induction N with
  | zero => simp
  | succ n ih =>
    intro buf hlen
    have hn : n < buf.length := by omega
    rw [List.range_succ, List.map_append, List.foldl_append,
      ih buf (by omega)]
    simp only [List.map_cons, List.map_nil, List.foldl_cons, List.foldl_nil]
    rw [applyWrite]
    have hpre : ((List.range n).map (fun o => some (v o))).length = n := by
      simp
    rw [List.set_append_right _ _ (by omega), hpre]
    rw [List.drop_eq_getElem_cons hn]
    simp only [Nat.sub_self, List.set_cons_zero]
    simp

/-- Canonical value of the launcher when the residency assert passes: the
output buffer holds `some (x[o] + y[o])` at every offset `o < numel x`
(with `getD _ _ default` standing for a device read, arbitrary past the
end of a buffer). -/
lemma addWithBlockSize_eq {α : Type} [Add α] [Inhabited α]
    (x y : Tensor α) (P : Nat) (hP : 0 < P)
    (hx : x.is_cuda = true) (hy : y.is_cuda = true) :
    addWithBlockSize x y P =
      Except.ok
        ⟨(List.range x.data.length).map
            (fun o => some (x.data.getD o default + y.data.getD o default)),
          true⟩ := by
  unfold addWithBlockSize
  simp only [empty_like, Tensor.numel, hx, hy, List.length_replicate,
    Bool.and_self, if_true]
  rw [launchGrid_eq _ _ _ P hP,
    foldl_applyWrite_range _ _ _ (by simp)]
  simp

lemma lt_div_succ_mul (i P : Nat) (hP : 0 < P) : i < (i / P + 1) * P := by
  have h1 := Nat.div_add_mod i P
  have h2 := Nat.mod_lt i hP
  have h3 : (i / P + 1) * P = P * (i / P) + P := by ring
  omega

/-- Pointwise behaviour of the launcher whenever the residency assert
passes, with no assumption relating the two input lengths: the result has
the length of `x`, and wherever both inputs have an element the output
cell holds their sum. -/
lemma add_pointwise {α : Type} [Add α] [Inhabited α]
    (A B : Tensor α) (P : Nat) (hP : 0 < P)
    (hA : A.is_cuda = true) (hB : B.is_cuda = true) :
    ∃ C : Tensor (Option α), addWithBlockSize A B P = Except.ok C ∧
      C.data.length = A.data.length ∧
      ∀ (i : Nat) (a b : α), A.data[i]? = some a → B.data[i]? = some b →
        C.data[i]? = some (some (a + b)) := by
  refine ⟨_, addWithBlockSize_eq A B P hP hA hB, by simp, ?_⟩
  intro i a b ha hb
  have hi : i < A.data.length := by
    by_contra hcon
    rw [List.getElem?_eq_none (by omega)] at ha
    exact Option.noConfusion ha
  have ha' : A.data.getD i default = a := by
    rw [List.getD_eq_getElem?_getD, ha, Option.getD_some]
  have hb' : B.data.getD i default = b := by
    rw [List.getD_eq_getElem?_getD, hb, Option.getD_some]
  simp only [List.getElem?_map, List.getElem?_range hi, Option.map_some']
  rw [ha', hb']

/-! ### Memory-level (frame) lemmas -/

lemma foldl_applyStore_output {α : Type} :
    ∀ (ss : List (Ptr × Nat × α)) (m : Mem α),
      (∀ s ∈ ss, s.1 = Ptr.output_ptr) →
      ss.foldl applyStore m =
        ⟨m.xbuf, m.ybuf,
          (ss.map (fun s => (s.2.1, s.2.2))).foldl applyWrite m.outbuf⟩ := by
  intro ss
  induction ss with
  | nil => intro m _; rfl
  | cons s ss ih =>
    intro m h
    obtain ⟨p, o, v⟩ := s
    have hp : p = Ptr.output_ptr := h _ (List.mem_cons_self _ _)
    subst hp
    rw [List.foldl_cons, ih _ (fun t ht => h t (List.mem_cons_of_mem _ ht))]
    rfl

lemma gridStores_fst {α : Type} [Add α] [Inhabited α]
    (m : Mem α) (N P : Nat) :
    ∀ s ∈ gridStores m N P, s.1 = Ptr.output_ptr := by
  intro s hs
  simp only [gridStores, kernelStores, List.mem_flatMap, List.mem_map] at hs
  obtain ⟨pid, -, o, -, rfl⟩ := hs
  rfl

lemma gridStores_map {α : Type} [Add α] [Inhabited α]
    (m : Mem α) (N P : Nat) :
    (gridStores m N P).map (fun s => (s.2.1, s.2.2)) =
      launchGrid m.xbuf m.ybuf N P := by
  unfold gridStores launchGrid
  rw [List.map_flatMap]
  apply List.flatMap_congr
  intro pid _
  simp [kernelStores, add_kernel, List.map_map, Function.comp]

/-! ### Claim theorems -/

/-- C1: for every pair of equal-length device-resident vectors `A`, `B` of
length `N` and every positive block size `P`, the add operation returns an
output `C` of length `N` with `C[i] = A[i] + B[i]` for every `i < N`. -/
theorem add_elementwise_correct {α : Type} [Add α] [Inhabited α]
    (A B : Tensor α) (P : Nat) (hP : 0 < P)
    (_hlen : A.data.length = B.data.length)
    (hA : A.is_cuda = true) (hB : B.is_cuda = true) :
    ∃ C : Tensor (Option α), addWithBlockSize A B P = Except.ok C ∧
      C.data.length = A.data.length ∧
      ∀ (i : Nat) (a b : α), A.data[i]? = some a → B.data[i]? = some b →
        C.data[i]? = some (some (a + b)) :=
  add_pointwise A B P hP hA hB

/-- Witness for C1 at `A = [1,2,3]`, `B = [10,20,30]`, `P = 2`. -/
theorem add_elementwise_correct_witness :
    ∃ C : Tensor (Option ℤ),
      addWithBlockSize (Tensor.mk [(1:ℤ), 2, 3] true)
          (Tensor.mk [(10:ℤ), 20, 30] true) 2 = Except.ok C ∧
      C.data.length = (Tensor.mk [(1:ℤ), 2, 3] true).data.length ∧
      ∀ (i : Nat) (a b : ℤ),
        (Tensor.mk [(1:ℤ), 2, 3] true).data[i]? = some a →
        (Tensor.mk [(10:ℤ), 20, 30] true).data[i]? = some b →
        C.data[i]? = some (some (a + b)) :=
  add_elementwise_correct (Tensor.mk [(1:ℤ), 2, 3] true)
    (Tensor.mk [(10:ℤ), 20, 30] true) 2 (by decide) (by decide) rfl rfl

set_option maxRecDepth 100000 in
/-- C2 counterexample: with `A = [1]`, `B = [10, 20]` (mismatched
lengths, both device-resident) the add operation does not fail: it
returns `Except.ok` with the silently truncated result `[11]`, so the
claimed precondition error is never raised. -/
theorem add_mismatch_no_error_counterexample :
    (Tensor.mk [(1:ℤ)] true).data.length ≠
      (Tensor.mk [(10:ℤ), 20] true).data.length ∧
    add (Tensor.mk [(1:ℤ)] true) (Tensor.mk [(10:ℤ), 20] true) =
      Except.ok (Tensor.mk [some 11] true) :=
  ⟨by decide, by rfl⟩

/-- C2 (amended): the launcher performs no length check.  For
device-resident inputs with `len A < len B` it does not fail: it returns
a silently truncated result of length `len A` whose cell `i` holds
`A[i] + B[i]`; the only precondition the code checks is accelerator
residency. -/
theorem add_mismatch_truncates {α : Type} [Add α] [Inhabited α]
    (A B : Tensor α) (_hlt : A.data.length < B.data.length)
    (hA : A.is_cuda = true) (hB : B.is_cuda = true) :
    ∃ C : Tensor (Option α), add A B = Except.ok C ∧
      C.data.length = A.data.length ∧
      ∀ (i : Nat) (a b : α), A.data[i]? = some a → B.data[i]? = some b →
        C.data[i]? = some (some (a + b)) :=
  add_pointwise A B 1024 (by decide) hA hB

/-- Witness for the amended C2 at `A = [1]`, `B = [10, 20]`. -/
theorem add_mismatch_truncates_witness :
    ∃ C : Tensor (Option ℤ),
      add (Tensor.mk [(1:ℤ)] true) (Tensor.mk [(10:ℤ), 20] true) =
        Except.ok C ∧
      C.data.length = (Tensor.mk [(1:ℤ)] true).data.length ∧
      ∀ (i : Nat) (a b : ℤ),
        (Tensor.mk [(1:ℤ)] true).data[i]? = some a →
        (Tensor.mk [(10:ℤ), 20] true).data[i]? = some b →
        C.data[i]? = some (some (a + b)) :=
  add_mismatch_truncates (Tensor.mk [(1:ℤ)] true)
    (Tensor.mk [(10:ℤ), 20] true) (by decide) rfl rfl

/-- C3: a worker's loads and stores all happen at offsets of
`maskedOffsets`, and every such offset lies in the worker's range
`[k*P, k*P + P)` and below `n_elements`; an offset of the range at or
beyond `n_elements` is masked out (no access), and every store the kernel
emits targets an offset below `n_elements`. -/
theorem kernel_accesses_in_bounds {α : Type} [Add α] [Inhabited α]
    (x y : List α) (N P k o : Nat) :
    (o ∈ maskedOffsets k P N → k * P ≤ o ∧ o < k * P + P ∧ o < N) ∧
    (k * P ≤ o → o < k * P + P → N ≤ o → o ∉ maskedOffsets k P N) ∧
    (∀ w ∈ add_kernel x y N k P, w.1 < N) := by
  refine ⟨?_, ?_, ?_⟩
  · intro h
    rw [mem_maskedOffsets] at h
    exact ⟨h.1.1, h.1.2, h.2⟩
  · intro h1 h2 h3 hmem
    rw [mem_maskedOffsets] at hmem
    omega
  · intro w hw
    simp only [add_kernel, List.mem_map] at hw
    obtain ⟨o', ho', rfl⟩ := hw
    exact (mem_maskedOffsets.mp ho').2

/-- Witness for C3 at `N = 5`, `P = 2`, `k = 2`: offset 4 is accessed and
in bounds, offset 5 of the same worker's range is masked out. -/
theorem kernel_accesses_in_bounds_witness :
    (2 * 2 ≤ 4 ∧ 4 < 2 * 2 + 2 ∧ 4 < 5) ∧ 5 ∉ maskedOffsets 2 2 5 :=
  ⟨(kernel_accesses_in_bounds ([] : List ℤ) [] 5 2 2 4).1 (by decide),
    (kernel_accesses_in_bounds ([] : List ℤ) [] 5 2 2 5).2.1 (by decide)
      (by decide) (by decide)⟩

/-- C4: for equal-length vectors the result of the launcher does not
depend on the positive block size: any two positive choices produce the
same output. -/
theorem add_blocksize_independent {α : Type} [Add α] [Inhabited α]
    (A B : Tensor α) (P Q : Nat) (hP : 0 < P) (hQ : 0 < Q)
    (_hlen : A.data.length = B.data.length) :
    addWithBlockSize A B P = addWithBlockSize A B Q := by
  by_cases hA : A.is_cuda = true
  · by_cases hB : B.is_cuda = true
    · rw [addWithBlockSize_eq A B P hP hA hB,
        addWithBlockSize_eq A B Q hQ hA hB]
    · have hB' : B.is_cuda = false := by
        cases hBB : B.is_cuda
        · rfl
        · exact absurd hBB hB
      unfold addWithBlockSize
      simp [hB']
  · have hA' : A.is_cuda = false := by
      cases hAA : A.is_cuda
      · rfl
      · exact absurd hAA hA
    unfold addWithBlockSize
    simp [hA']

/-- Witness for C4 at `A = [1,2,3]`, `B = [10,20,30]`, `P = 2`,
`Q = 5`. -/
theorem add_blocksize_independent_witness :
    addWithBlockSize (Tensor.mk [(1:ℤ), 2, 3] true)
        (Tensor.mk [(10:ℤ), 20, 30] true) 2 =
      addWithBlockSize (Tensor.mk [(1:ℤ), 2, 3] true)
        (Tensor.mk [(10:ℤ), 20, 30] true) 5 :=
  add_blocksize_independent (Tensor.mk [(1:ℤ), 2, 3] true)
    (Tensor.mk [(10:ℤ), 20, 30] true) 2 5 (by decide) (by decide) rfl

/-- C5: every output index `i < N` is stored to exactly once across the
whole grid, namely by the one launched worker `pid = i / P` (the worker
whose range `[pid*P, pid*P + P)` contains `i`); that worker's id is below
the grid size. -/
theorem output_written_once {α : Type} [Add α] [Inhabited α]
    (x y : List α) (N P i : Nat) (hP : 0 < P) (hi : i < N) :
    (launchGrid x y N P).countP (fun w => w.1 == i) = 1 ∧
    i / P < cdiv N P ∧
    ∀ pid : Nat,
      (∃ w ∈ add_kernel x y N pid P, w.1 = i) ↔ pid = i / P := by
  refine ⟨?_, ?_, ?_⟩
  · rw [launchGrid_eq x y N P hP, List.countP_map]
    show (List.range N).count i = 1
    exact List.count_eq_one_of_mem (List.nodup_range N) (List.mem_range.mpr hi)
  · exact (Nat.div_lt_iff_lt_mul hP).mpr
      (Nat.lt_of_lt_of_le hi (le_cdiv_mul N P hP))
  · intro pid
    constructor
    · rintro ⟨w, hw, hwi⟩
      simp only [add_kernel, List.mem_map] at hw
      obtain ⟨o, ho, rfl⟩ := hw
      have ho' : o = i := hwi
      subst ho'
      rw [mem_maskedOffsets] at ho
      have hlt : o < (pid + 1) * P := by
        have : (pid + 1) * P = pid * P + P := by ring
        omega
      exact (Nat.div_eq_of_lt_le ho.1.1 hlt).symm
    · rintro rfl
      refine ⟨(i, x.getD i default + y.getD i default), ?_, rfl⟩
      simp only [add_kernel, List.mem_map]
      refine ⟨i, ?_, rfl⟩
      rw [mem_maskedOffsets]
      refine ⟨⟨Nat.div_mul_le_self i P, ?_⟩, hi⟩
      have h1 := lt_div_succ_mul i P hP
      have h2 : (i / P + 1) * P = i / P * P + P := by ring
      omega

/-- Witness for C5 at `N = 5`, `P = 2`, `i = 4`. -/
theorem output_written_once_witness :
    (launchGrid [(1:ℤ), 2, 3, 4, 5] [10, 20, 30, 40, 50] 5 2).countP
        (fun w => w.1 == 4) = 1 ∧
    4 / 2 < cdiv 5 2 ∧
    ∀ pid : Nat,
      (∃ w ∈ add_kernel [(1:ℤ), 2, 3, 4, 5] [10, 20, 30, 40, 50] 5 pid 2,
        w.1 = 4) ↔ pid = 4 / 2 :=
  output_written_once [(1:ℤ), 2, 3, 4, 5] [10, 20, 30, 40, 50] 5 2 4
    (by decide) (by decide)

/-- C6: the add operation is deterministic — it is a pure function of its
two arguments (the embedding of the source needs no hidden state), so two
invocations on the same inputs return identical results. -/
theorem add_deterministic {α : Type} [Add α] [Inhabited α]
    (A B : Tensor α) : add A B = add A B := rfl

/-- C7: for empty inputs the launch grid has `cdiv 0 1024 = 0` programs,
no store events are emitted, and the add operation returns an empty
output without error. -/
theorem add_empty_vectors {α : Type} [Add α] [Inhabited α]
    (A B : Tensor α) (h0 : A.data = [])
    (hA : A.is_cuda = true) (hB : B.is_cuda = true) :
    add A B = Except.ok ⟨[], true⟩ ∧
    cdiv (empty_like A).numel 1024 = 0 ∧
    launchGrid A.data B.data (empty_like A).numel 1024 = [] := by
  have hnum : (empty_like A).numel = 0 := by
    simp [empty_like, Tensor.numel, h0]
  refine ⟨?_, ?_, ?_⟩
  · unfold add
    rw [addWithBlockSize_eq A B 1024 (by decide) hA hB]
    simp [h0]
  · rw [hnum]
    decide
  · rw [hnum, launchGrid_eq _ _ _ _ (by decide)]
    simp

/-- Witness for C7 at `A = B = []` (device-resident). -/
theorem add_empty_vectors_witness :
    add (Tensor.mk ([] : List ℤ) true) (Tensor.mk ([] : List ℤ) true) =
      Except.ok ⟨[], true⟩ ∧
    cdiv (empty_like (Tensor.mk ([] : List ℤ) true)).numel 1024 = 0 ∧
    launchGrid (Tensor.mk ([] : List ℤ) true).data
      (Tensor.mk ([] : List ℤ) true).data
      (empty_like (Tensor.mk ([] : List ℤ) true)).numel 1024 = [] :=
  add_empty_vectors (Tensor.mk ([] : List ℤ) true)
    (Tensor.mk ([] : List ℤ) true) rfl rfl rfl

/-- C8: concrete scenario `A = [1,2,3,4,5]`, `B = [10,20,30,40,50]`,
`P = 2`: three chunks with masked offsets `[0,1]`, `[2,3]`, `[4]` (the
last masked to one valid element), and the result is
`[11,22,33,44,55]`. -/
theorem add_concrete_scenario :
    cdiv 5 2 = 3 ∧
    maskedOffsets 0 2 5 = [0, 1] ∧
    maskedOffsets 1 2 5 = [2, 3] ∧
    maskedOffsets 2 2 5 = [4] ∧
    addWithBlockSize (Tensor.mk [(1:ℤ), 2, 3, 4, 5] true)
        (Tensor.mk [(10:ℤ), 20, 30, 40, 50] true) 2 =
      Except.ok
        (Tensor.mk [some 11, some 22, some 33, some 44, some 55] true) :=
  ⟨by decide, by decide, by decide, by decide, by rfl⟩

/-- C9: running the whole grid on device memory leaves the input buffers
`x_ptr` and `y_ptr` untouched (every store of the kernel targets
`output_ptr`); the only buffer that changes is the output buffer, which
receives exactly the grid's writes. -/
theorem inputs_unmodified {α : Type} [Add α] [Inhabited α]
    (m : Mem α) (N P : Nat) :
    (runGrid m N P).xbuf = m.xbuf ∧ (runGrid m N P).ybuf = m.ybuf ∧
    (runGrid m N P).outbuf =
      (launchGrid m.xbuf m.ybuf N P).foldl applyWrite m.outbuf := by
  unfold runGrid
  rw [foldl_applyStore_output _ _ (gridStores_fst m N P), gridStores_map]
  exact ⟨rfl, rfl, rfl⟩

/-- C10: the launcher takes its element count from its first argument
(via `output = torch.empty_like(x)` and `n_elements = output.numel()`),
and its only precondition check is the residency assert: for
device-resident inputs it returns, with no length-related error, a result
of length `len x` regardless of `len y`; for non-resident inputs it fails
with the residency assert. -/
theorem add_no_length_check {α : Type} [Add α] [Inhabited α]
    (A B : Tensor α) :
    ((A.is_cuda && B.is_cuda) = true →
      ∃ C : Tensor (Option α), add A B = Except.ok C ∧
        C.data.length = A.data.length) ∧
    ((A.is_cuda && B.is_cuda) = false →
      add A B =
        Except.error "assert x.is_cuda and y.is_cuda and output.is_cuda") := by
  constructor
  · intro h
    rw [Bool.and_eq_true] at h
    obtain ⟨C, hC, hlen, -⟩ := add_pointwise A B 1024 (by decide) h.1 h.2
    exact ⟨C, hC, hlen⟩
  · intro h
    unfold add addWithBlockSize
    simp only [empty_like]
    rw [Bool.and_eq_false_iff] at h
    rcases h with h | h <;> simp [h]

/-- Witness for C10: resident inputs of unequal lengths succeed with
output length `len x`; a non-resident second input fails the assert. -/
theorem add_no_length_check_witness :
    (∃ C : Tensor (Option ℤ),
      add (Tensor.mk [(1:ℤ)] true) (Tensor.mk [(10:ℤ), 20] true) =
        Except.ok C ∧
      C.data.length = (Tensor.mk [(1:ℤ)] true).data.length) ∧
    add (Tensor.mk [(1:ℤ)] true) (Tensor.mk [(10:ℤ), 20] false) =
      Except.error "assert x.is_cuda and y.is_cuda and output.is_cuda" :=
  ⟨(add_no_length_check (Tensor.mk [(1:ℤ)] true)
      (Tensor.mk [(10:ℤ), 20] true)).1 (by decide),
    (add_no_length_check (Tensor.mk [(1:ℤ)] true)
      (Tensor.mk [(10:ℤ), 20] false)).2 (by decide)⟩

end TritonVecAdd
